import Mathlib

set_option maxRecDepth 4000

/-!
Verification development for the flight-fare watcher `super_veille_flights.py`.

The Python source is shallowly embedded: JSON values are an inductive type,
Python numbers are modelled as rationals (`ℚ`), operations that can raise a
Python exception return `Except Unit α`, and the module-level constants are
plain definitions.  Dates are modelled by their proleptic-Gregorian ordinal
(`date.toordinal` in Python), so that Python's date arithmetic becomes integer
arithmetic.
-/

namespace SuperVeille

instance {ε α : Type} [DecidableEq ε] [DecidableEq α] : DecidableEq (Except ε α) := fun x y =>
  match x, y with
  | .ok a, .ok b => decidable_of_iff (a = b) (by simp)
  | .error a, .error b => decidable_of_iff (a = b) (by simp)
  | .ok _, .error _ => isFalse (by simp)
  | .error _, .ok _ => isFalse (by simp)

/-- A JSON value, as manipulated dynamically by the Python source.
Numbers are modelled as rationals. -/
inductive JSON where
  | null
  | bool (b : Bool)
  | num (q : ℚ)
  | str (s : String)
  | arr (xs : List JSON)
  | obj (fields : List (String × JSON))

/-- Python truthiness (`bool(x)`) of a JSON value. -/
def jtruthy : JSON → Bool
  | .null => false
  | .bool b => b
  | .num q => q != 0
  | .str s => s != ""
  | .arr xs => !xs.isEmpty
  | .obj fs => !fs.isEmpty

/-- First-match field lookup in a JSON object (`dict` lookup; keys are unique
in all objects built by this program). -/
def jlookup : List (String × JSON) → String → Option JSON
  | [], _ => none
  | (k, v) :: rest, key => if k = key then some v else jlookup rest key

/-- `x.get(key, default)` on a Python value: succeeds only on a `dict`
(`AttributeError` otherwise, modelled as `.error ()`). -/
def jgetD (j : JSON) (key : String) (dflt : JSON) : Except Unit JSON :=
  match j with
  | .obj fs => .ok ((jlookup fs key).getD dflt)
  | _ => .error ()

/-- Python iteration `for x in j`.  Lists iterate over elements, strings over
their one-character strings, dicts over their keys; other values raise
`TypeError`. -/
def jiter : JSON → Except Unit (List JSON)
  | .arr xs => .ok xs
  | .str s => .ok (s.toList.map (fun c => JSON.str (String.mk [c])))
  | .obj fs => .ok (fs.map (fun p => JSON.str p.1))
  | _ => .error ()

/-- Python `len(j)`: defined for lists, strings and dicts, raises otherwise. -/
def jlen : JSON → Except Unit Nat
  | .arr xs => .ok xs.length
  | .str s => .ok s.length
  | .obj fs => .ok fs.length
  | _ => .error ()

/-! ### Character-level helpers for string parsing -/

/-- ASCII decimal-digit test (the only characters `float` accepts in the
integer and fraction parts). -/
def isDigitChar (c : Char) : Bool := 48 ≤ c.toNat && c.toNat ≤ 57

/-- ASCII lower-casing of one character, as Python `str.lower` acts on the
ASCII range (the only range this program feeds it). -/
def pyLowerChar (c : Char) : Char :=
  if 65 ≤ c.toNat && c.toNat ≤ 90 then Char.ofNat (c.toNat + 32) else c

/-- Character membership in a character list. -/
def containsChar (c : Char) : List Char → Bool
  | [] => false
  | x :: xs => x = c || containsChar c xs

/-- `s.split(c)` on character lists: full split on every occurrence of `c`,
never returns an empty list. -/
def splitChar (c : Char) : List Char → List (List Char)
  | [] => [[]]
  | x :: xs =>
    if x = c then [] :: splitChar c xs
    else
      match splitChar c xs with
      | [] => [[x]]
      | p :: ps => (x :: p) :: ps

/-- `s.replace("PT", "")`: remove every non-overlapping occurrence of the
two-character substring `PT`, scanning left to right. -/
def replacePT : List Char → List Char
  | [] => []
  | [c] => [c]
  | c1 :: c2 :: rest =>
    if c1 = 'P' && c2 = 'T' then replacePT rest
    else c1 :: replacePT (c2 :: rest)

/-- Value of a list of decimal digits, most significant first. -/
def digitsToNat (l : List Char) : Nat :=
  l.foldl (fun acc c => acc * 10 + (c.toNat - 48)) 0

/-- `10 ^ n` as a rational, by plain recursion. -/
def pow10 : Nat → ℚ
  | 0 => 1
  | n + 1 => 10 * pow10 n

/-- Magnitude part of Python `float(string)`: digits, an optional decimal
point, and fraction digits; at least one digit overall.  Exponents,
`inf`/`nan`, underscores and surrounding whitespace — which never occur in
this program's inputs — are not modelled and fall into the error case. -/
def parseFloatMag (l : List Char) (sign : ℚ) : Except Unit ℚ :=
  let ip := l.takeWhile isDigitChar
  let rest := l.dropWhile isDigitChar
  if rest.isEmpty then
    if ip.isEmpty then .error () else .ok (sign * digitsToNat ip)
  else if rest.head? = some '.' then
    let frac := rest.tail
    if frac.all isDigitChar && !(ip.isEmpty && frac.isEmpty) then
      .ok (sign * ((digitsToNat ip : ℚ) + (digitsToNat frac : ℚ) / pow10 frac.length))
    else .error ()
  else .error ()

/-- Python `float(string)`: optional sign followed by the magnitude,
`ValueError` modelled as `.error ()`. -/
def parseFloatChars (l : List Char) : Except Unit ℚ :=
  if l.head? = some '-' then parseFloatMag l.tail (-1)
  else if l.head? = some '+' then parseFloatMag l.tail 1
  else parseFloatMag l 1

/-- Python `float(j)` on a JSON value: numbers and booleans convert, strings
are parsed, `None`/lists/dicts raise `TypeError`. -/
def pyFloat : JSON → Except Unit ℚ
  | .num q => .ok q
  | .bool b => .ok (if b then 1 else 0)
  | .str s => parseFloatChars s.toList
  | _ => .error ()

/-! ### `parse_duration_hours` -/

/-- The body of `parse_duration_hours` (source lines 158–172) on the
character list of its argument.  The source can raise a `ValueError` out of
the `float` calls, hence the `Except` result. -/
def parse_duration_chars (l : List Char) : Except Unit ℚ :=
  if l.isEmpty then .ok 0
  else if ¬ (l.take 2 = ['P', 'T']) then .ok 0
  else
    let l1 := (replacePT l).map pyLowerChar
    if containsChar 'h' l1 then
      let parts := splitChar 'h' l1
      let p0 := parts.headD []
      do
        let h ← if p0.isEmpty then pure (0 : ℚ) else parseFloatChars p0
        let tail := parts.tail.headD []
        let m ←
          if containsChar 'm' tail then
            let t0 := (splitChar 'm' tail).headD []
            if t0.isEmpty then pure (0 : ℚ) else parseFloatChars t0
          else pure (0 : ℚ)
        pure (h + m / 60)
    else if containsChar 'm' l1 then
      let t := l1.filter (fun c => c ≠ 'm')
      do
        let m ← if t.isEmpty then pure (0 : ℚ) else parseFloatChars t
        pure ((0 : ℚ) + m / 60)
    else .ok (0 + 0 / 60)

/-- Embedding of `parse_duration_hours` (source lines 158–172). -/
def parse_duration_hours (iso : String) : Except Unit ℚ :=
  parse_duration_chars iso.toList

/-- `parse_duration_hours(j)` as called on an arbitrary JSON value: a falsy
argument returns `0.0` before any attribute access; a truthy non-string raises
`AttributeError` at `iso.startswith`. -/
def parseDurationJSON (j : JSON) : Except Unit ℚ :=
  if jtruthy j = false then .ok 0
  else
    match j with
    | .str s => parse_duration_hours s
    | _ => .error ()

/-! ### Module-level configuration constants (source lines 50–61) -/

def PARIS_AIRPORTS : List String := ["CDG", "ORY"]

def OSAKA_AIRPORTS : List String := ["KIX", "ITM", "UKB"]

def CEBU_AIRPORT : String := "CEB"

/-- `os.getenv("CURRENCY", "EUR")` with the default environment. -/
def CURRENCY : String := "EUR"

def MAX_STOPS : Nat := 1

def MAX_DURATION_HOURS : ℚ := 25

def BAGGAGE_REQUIRED : Bool := true

def THRESHOLD_MAIN : ℚ := 650

def EXCEPTION_MIN : ℚ := 651

def EXCEPTION_MAX : ℚ := 700

/-- The fixed allow-list of premium airline codes (source line 196). -/
def PREMIUM_CODES : List String := ["AF", "KL", "AY", "NH", "JL", "QR", "SQ", "CX", "LH", "LX"]

/-- Embedding of `exceptional_itinerary` (source lines 91–94). -/
def exceptional_itinerary (duration_hours : ℚ) (layovers : List ℚ) (premium : Bool) : Bool :=
  let short_layover := layovers.any (fun l => decide ((3/4 : ℚ) ≤ l) && decide (l ≤ 5/2))
  (decide ((15 : ℚ) ≤ duration_hours) && decide (duration_hours ≤ 18)) || short_layover || premium

/-! ### The offer evaluator `offer_meets_rules` (source lines 175–202) -/

/-- The metrics dictionary computed by `offer_meets_rules`. -/
structure Metrics where
  total_hours : ℚ
  stops : Nat
  bag_included : Bool
  premium : Bool
  layovers : List ℚ
deriving DecidableEq

/-- The initial metrics dictionary (source line 176); this is what the
`except` branch returns, since every raising operation in the `try` block
precedes the `metrics.update(...)` call. -/
def defaultMetrics : Metrics :=
  { total_hours := 0, stops := 0, bag_included := false, premium := false, layovers := [] }

/-- The itinerary loop of `offer_meets_rules` (source lines 182–188),
accumulating total hours, the maximum stop count and the layover list. -/
def processItins : List JSON → ℚ → Nat → List ℚ → Except Unit (ℚ × Nat × List ℚ)
  | [], total_h, max_stops, layovers => .ok (total_h, max_stops, layovers)
  | itin :: rest, total_h, max_stops, layovers => do
    let segs ← jgetD itin "segments" (.arr [])
    let n ← jlen segs
    let dur ← jgetD itin "duration" (.str "PT0H")
    let dh ← parseDurationJSON dur
    processItins rest (total_h + dh) (max max_stops (n - 1))
      (layovers ++ if 1 < n then [(3 : ℚ)/2] else [])

/-- Python `(x or 0)`. -/
def pyOrZero (j : JSON) : JSON := if jtruthy j then j else .num 0

/-- Python `j > 0` on a JSON value: numbers and booleans compare
(`True`/`False` are the integers 1/0), anything else raises `TypeError`. -/
def jgtZero : JSON → Except Unit Bool
  | .num q => .ok (decide (0 < q))
  | .bool b => .ok b
  | _ => .error ()

/-- The inner fare-details loop of the baggage check (source lines 192–195).
A non-`dict` `includedCheckedBags` is skipped by the `isinstance` guard. -/
def bagInner : List JSON → Bool → Except Unit Bool
  | [], b => .ok b
  | f :: rest, b => do
    let inc ← jgetD f "includedCheckedBags" .null
    let hit ←
      match inc with
      | .obj fs => jgtZero (pyOrZero ((jlookup fs "quantity").getD .null))
      | _ => pure false
    bagInner rest (b || hit)

/-- The traveler-pricings loop of the baggage check (source lines 191–195). -/
def bagLoop : List JSON → Bool → Except Unit Bool
  | [], b => .ok b
  | tp :: rest, b => do
    let fds ← jgetD tp "fareDetailsBySegment" (.arr [])
    let fdl ← jiter fds
    let b1 ← bagInner fdl b
    bagLoop rest b1

/-- The premium-carrier check (source line 196): `any` short-circuits, a
set-membership test on an unhashable value (list/dict) raises `TypeError`. -/
def premiumAny : List JSON → Except Unit Bool
  | [] => .ok false
  | c :: rest => do
    let hit ←
      match c with
      | .str s => Except.ok (PREMIUM_CODES.contains s)
      | .arr _ => .error ()
      | .obj _ => .error ()
      | _ => Except.ok false
    if hit then .ok true else premiumAny rest

/-- The body of the `try` block of `offer_meets_rules` (source lines
178–199). -/
def omrBody (offer : JSON) : Except Unit (Bool × Metrics) := do
  let its ← jgetD offer "itineraries" (.arr [])
  let itsL ← jiter its
  let (total_h, max_stops, layovers) ← processItins itsL 0 0 []
  let tps ← jgetD offer "travelerPricings" (.arr [])
  let tpsL ← jiter tps
  let bag_included ← bagLoop tpsL false
  let codes ← jgetD offer "validatingAirlineCodes" (.arr [])
  let codesL ← jiter codes
  let premium ← premiumAny codesL
  let m : Metrics :=
    { total_hours := total_h, stops := max_stops, bag_included := bag_included,
      premium := premium, layovers := layovers }
  let ok := decide (max_stops ≤ MAX_STOPS) && decide (total_h < MAX_DURATION_HOURS) &&
    (!BAGGAGE_REQUIRED || bag_included)
  pure (ok, m)

/-- Embedding of `offer_meets_rules` (source lines 175–202): any exception
inside the `try` block yields `(False, metrics)` with `metrics` still at its
initial value, because every raising operation precedes the update. -/
def offer_meets_rules (offer : JSON) : Bool × Metrics :=
  match omrBody offer with
  | .ok r => r
  | .error _ => (false, defaultMetrics)

/-! ### Prices, ranking and compaction (source lines 205–225) -/

/-- Embedding of `get_price` (source lines 205–209):
`float(offer.get("price", {}).get("total", 1e9))`, any exception giving
`1e9`. -/
def get_price (offer : JSON) : ℚ :=
  match (do
      let pobj ← jgetD offer "price" (.obj [])
      let total ← jgetD pobj "total" (.num 1000000000)
      pyFloat total : Except Unit ℚ) with
  | .ok q => q
  | .error _ => 1000000000

/-- Floor of a non-negative-denominator rational, on top of `Int.fdiv`. -/
def ratFloor (q : ℚ) : Int := Int.fdiv q.num q.den

/-- Python `round` to the nearest integer: banker's rounding
(round-half-to-even), which is what CPython's `round` implements. -/
def pyRoundInt (q : ℚ) : Int :=
  let fl := ratFloor q
  let fr := q - (fl : ℚ)
  if fr < 1/2 then fl
  else if 1/2 < fr then fl + 1
  else if fl % 2 = 0 then fl else fl + 1

/-- Python `round(x, 1)`. -/
def pyRound1 (q : ℚ) : ℚ := (pyRoundInt (q * 10) : ℚ) / 10

/-- Python `round(x, 2)`. -/
def pyRound2 (q : ℚ) : ℚ := (pyRoundInt (q * 100) : ℚ) / 100

/-- `",".join(strings)`. -/
def joinComma : List String → String
  | [] => ""
  | [s] => s
  | s :: rest => s ++ "," ++ joinComma rest

/-- The compacted offer dictionary built by `compact` (source lines 216–225).
`price` and `currency` hold the raw JSON values found under
`offer["price"]["total"]` / `["currency"]` (`null` when absent). -/
structure Compact where
  price : JSON
  currency : JSON
  carriers : String
  stops : Nat
  hours : ℚ
  bag_included : Bool
  premium : Bool

/-- Embedding of `compact` (source lines 216–225).  `offer.get("price", {})`
requires `offer` to be a dict and `.get("total")` requires the price value to
be one; `",".join(...)` raises on a non-string element. -/
def compact (offer : JSON) (m : Metrics) : Except Unit Compact := do
  let pobj ← jgetD offer "price" (.obj [])
  let price ← jgetD pobj "total" .null
  let currency ← jgetD pobj "currency" .null
  let codes ← jgetD offer "validatingAirlineCodes" (.arr [])
  let codesL ← jiter codes
  let strs ← codesL.mapM (fun c =>
    match c with
    | .str s => Except.ok s
    | _ => Except.error ())
  pure { price := price, currency := currency, carriers := joinComma strs,
         stops := m.stops, hours := pyRound1 m.total_hours,
         bag_included := m.bag_included, premium := m.premium }

/-! ### Dates: proleptic-Gregorian ordinals (Python `datetime.date`) -/

def isLeap (y : Nat) : Bool := (y % 4 = 0 && y % 100 ≠ 0) || y % 400 = 0

def daysInMonth (y m : Nat) : Nat :=
  if m = 2 then (if isLeap y then 29 else 28)
  else if m = 4 ∨ m = 6 ∨ m = 9 ∨ m = 11 then 30
  else 31

/-- Days in year `y` before the first day of month `m`. -/
def daysBeforeMonth (y m : Nat) : Nat :=
  ((List.range (m - 1)).map (fun i => daysInMonth y (i + 1))).sum

/-- `date(y, m, d).toordinal()`: day count with day 1 = 0001-01-01, as in
CPython's `datetime.date`.  Python date arithmetic (`+ timedelta(days=n)`,
`relativedelta(days=+n)`, date differences and comparisons) is exactly
ordinal arithmetic. -/
def toRD (y m d : Nat) : Int :=
  ((365 * (y - 1) + (y - 1) / 4 - (y - 1) / 100 + (y - 1) / 400 + daysBeforeMonth y m + d : Nat) : Int)

def DEPART_WINDOW_START : Int := toRD 2026 1 1

def DEPART_WINDOW_END : Int := toRD 2026 1 15

/-- Embedding of `daterange` (source lines 77–79): all days from `start` to
`finish` inclusive, empty when `finish < start`. -/
def daterange (start finish : Int) : List Int :=
  (List.range (finish - start + 1).toNat).map (fun (n : Nat) => start + (n : Int))

/-- Embedding of `generate_paris_osaka_exact90_pairs` (source lines 82–88). -/
def generate_paris_osaka_exact90_pairs : List (Int × Int) :=
  ((daterange DEPART_WINDOW_START DEPART_WINDOW_END).filter
    (fun d0 => decide (toRD 2026 4 1 ≤ d0 + 90) && decide (d0 + 90 ≤ toRD 2026 4 15))).map
    (fun d0 => (d0, d0 + 90))

/-! ### The rate-limited HTTP client (`Amadeus`, source lines 98–153) -/

/-- One HTTP response, reduced to the fields `_safe_get` consumes. -/
structure HttpResponse where
  status : Nat
  retryAfter : Option String
  body : String
deriving DecidableEq

/-- Outcome of `_safe_get`: the returned response, a raised `HTTPError`
carrying the status, or exhaustion of the modelled response sequence. -/
inductive GetResult where
  | success (r : HttpResponse)
  | httpError (status : Nat)
  | exhausted
deriving DecidableEq

def MAX_RETRIES : Nat := 6

/-- The sleep computed for one 429 response (source lines 145–149):
`min(60, int(retry_after))` when the header is a truthy string parsing as an
integer, else `min(60, 2 ** attempt)` (also on parse failure). -/
def backoffWait (retryAfter : Option String) (attempt : Nat) : Int :=
  match retryAfter with
  | none => min 60 ((2 ^ attempt : Nat) : Int)
  | some s =>
    if s = "" then min 60 ((2 ^ attempt : Nat) : Int)
    else
      match s.toInt? with
      | some n => min 60 n
      | none => min 60 ((2 ^ attempt : Nat) : Int)

/-- The retry loop of `_safe_get` (source lines 137–153) run against a given
sequence of responses (one per issued request), accumulating the sleep
durations.  `raise_for_status` raises exactly on statuses 400–599. -/
def safeGetAux : List HttpResponse → Nat → List Int × GetResult
  | [], _ => ([], .exhausted)
  | r :: rest, attempt =>
    if r.status = 429 then
      if MAX_RETRIES < attempt + 1 then ([], .httpError 429)
      else
        let w := backoffWait r.retryAfter (attempt + 1)
        let (sleeps, res) := safeGetAux rest (attempt + 1)
        (w :: sleeps, res)
    else if 400 ≤ r.status && r.status < 600 then ([], .httpError r.status)
    else ([], .success r)

/-- `_safe_get` from a fresh call (`attempt = 0`). -/
def safeGet (rs : List HttpResponse) : List Int × GetResult := safeGetAux rs 0

/-- The sleeps `_safe_get` performs on a prefix of 429 responses, the `n`-th
of them with attempt counter `a + n`. -/
def expectedSleeps : List HttpResponse → Nat → List Int
  | [], _ => []
  | r :: rest, a => backoffWait r.retryAfter (a + 1) :: expectedSleeps rest (a + 1)

/-- `f"Bearer {self._token}"`: Python formats `None` as the string `None`. -/
def renderToken : Option String → String
  | some t => "Bearer " ++ t
  | none => "Bearer None"

/-- Truthiness of the cached token (`if not self._token`). -/
def tokenTruthy : Option String → Bool
  | none => false
  | some t => t ≠ ""

/-- Embedding of `Amadeus._headers` (source lines 116–119): returns the
`Authorization` header value and the token state after the call.
`authToken` is the `access_token` field the auth endpoint would return if
`_auth()` were invoked. -/
def headersFn (token : Option String) (authToken : Option String) : String × Option String :=
  if tokenTruthy token then (renderToken token, token)
  else (renderToken authToken, authToken)

/-! ### Orchestrator pieces from `run_once` (source lines 230–302) -/

/-- An offers oracle: what the search endpoint returns for
(origin, destination, departure date).  `run_once` drives the client over
such calls; all its list-building is deterministic given this oracle. -/
def Fetch : Type := String → String → Int → List JSON

/-- Evaluate a list of fetched offers, keeping the passing ones paired with
their metrics (the source attaches metrics as `off["_metrics"]`). -/
def evalOffers (offs : List JSON) : List (JSON × Metrics) :=
  offs.filterMap (fun off =>
    let r := offer_meets_rules off
    if r.1 then some (off, r.2) else none)

/-- One combo dictionary as built in `run_once` (source lines 277–283);
dates are kept as ordinals (the source stores their ISO rendering). -/
structure Combo where
  total : ℚ
  currency : JSON
  osa_ceb : Compact
  ceb_par : Compact
  date_osa_ceb : Int
  date_ceb_par : Int

/-- `a.get("price", {}).get("currency", CURRENCY)` (source line 279). -/
def comboCurrency (a : JSON) : Except Unit JSON := do
  let pobj ← jgetD a "price" (.obj [])
  jgetD pobj "currency" (.str CURRENCY)

/-- Build one combo record from a passing leg pair (source lines 274–283). -/
def comboRecord (a b : JSON × Metrics) (dOsaCeb : Int) : Except Unit Combo := do
  let cur ← comboCurrency a.1
  let ca ← compact a.1 a.2
  let cb ← compact b.1 b.2
  pure { total := pyRound2 (get_price a.1 + get_price b.1), currency := cur,
         osa_ceb := ca, ceb_par := cb,
         date_osa_ceb := dOsaCeb, date_ceb_par := dOsaCeb + 14 }

def CEBU_WINDOW_START : Int := toRD 2026 4 1

def CEBU_WINDOW_END : Int := toRD 2026 4 15

/-- The combos built for one date of the Cebu window (source lines 253–283):
fetch and evaluate Osaka→Cebu legs for `d` and Cebu→Paris legs for `d + 14`,
then form the cross product. -/
def combosForDate (fetch : Fetch) (d : Int) : Except Unit (List Combo) :=
  let osa_ceb_valid := OSAKA_AIRPORTS.flatMap (fun o => evalOffers (fetch o CEBU_AIRPORT d))
  let ceb_par_valid := PARIS_AIRPORTS.flatMap (fun p => evalOffers (fetch CEBU_AIRPORT p (d + 14)))
  (osa_ceb_valid.flatMap (fun a => ceb_par_valid.map (fun b => (a, b)))).mapM
    (fun ab => comboRecord ab.1 ab.2 d)

/-- All combos accumulated over the Cebu window (source lines 252–283). -/
def validCebuCombos (fetch : Fetch) : Except Unit (List Combo) := do
  let ls ← (daterange CEBU_WINDOW_START CEBU_WINDOW_END).mapM (combosForDate fetch)
  pure ls.flatten

/-- The Osaka alert record (source lines 292–295). -/
structure OsakaAlert where
  reason : String
  best : Compact

/-- The direct-route alert derivation (source lines 289–295), from the
compacted top-3 list.  `best.get("price", 1e9)` returns the stored price
value (the key is always present in a compacted dict), so `float` raises on
a `null`/non-numeric-string price. -/
def osakaAlert (top3_osaka : List Compact) : Except Unit (Option OsakaAlert) :=
  match top3_osaka with
  | [] => .ok none
  | best :: _ => do
    let price ← pyFloat best.price
    if price ≤ THRESHOLD_MAIN then
      pure (some { reason := "≤650€", best := best })
    else if EXCEPTION_MIN ≤ price ∧ price ≤ EXCEPTION_MAX ∧
        exceptional_itinerary best.hours [] best.premium = true then
      pure (some { reason := "651–700€ exceptionnel", best := best })
    else pure none

/-- The combo alert derivation (source lines 297–300): fires only when both
top-3 lists are non-empty and the cheapest combo total undercuts the
cheapest direct price plus 300. -/
def comboAlert (top3_cebu : List Combo) (top3_osaka : List Compact) :
    Except Unit (Option (Combo × ℚ)) :=
  match top3_cebu, top3_osaka with
  | c :: _, b :: _ => do
    let p ← pyFloat b.price
    let ref := p + 300
    if c.total < ref then pure (some (c, ref)) else pure none
  | _, _ => pure none

/-! ## Theorems -/

/-! ### C1: the 429 retry policy of `_safe_get` -/

theorem safeGetAux_cons_429 (x : HttpResponse) (rs : List HttpResponse) (a : Nat)
    (hx : x.status = 429) (hle : ¬ MAX_RETRIES < a + 1) :
    safeGetAux (x :: rs) a =
      (backoffWait x.retryAfter (a + 1) :: (safeGetAux rs (a + 1)).1,
        (safeGetAux rs (a + 1)).2) := by
  simp [safeGetAux, hx, hle]

theorem safeGetAux_cons_giveup (x : HttpResponse) (rs : List HttpResponse) (a : Nat)
    (hx : x.status = 429) (hle : MAX_RETRIES < a + 1) :
    safeGetAux (x :: rs) a = ([], .httpError 429) := by
  simp [safeGetAux, hx, hle]

theorem safeGetAux_cons_ok (x : HttpResponse) (rs : List HttpResponse) (a : Nat)
    (hx : x.status < 400) :
    safeGetAux (x :: rs) a = ([], .success x) := by
  have h429 : ¬ x.status = 429 := by omega
  have h4xx : (decide (400 ≤ x.status) && decide (x.status < 600)) = false := by
    simp only [Bool.and_eq_false_iff, decide_eq_false_iff_not]
    omega
  simp [safeGetAux, h429, h4xx]

theorem safeGetAux_cons_err (x : HttpResponse) (rs : List HttpResponse) (a : Nat)
    (h429 : x.status ≠ 429) (h4 : 400 ≤ x.status) (h6 : x.status < 600) :
    safeGetAux (x :: rs) a = ([], .httpError x.status) := by
  have h4xx : (decide (400 ≤ x.status) && decide (x.status < 600)) = true := by
    simp only [Bool.and_eq_true, decide_eq_true_eq]
    exact ⟨h4, h6⟩
  simp [safeGetAux, h429, h4xx]

theorem safeGetAux_success (pre : List HttpResponse) (r : HttpResponse) (rest : List HttpResponse)
    (a : Nat) (hpre : ∀ x ∈ pre, x.status = 429) (hlen : pre.length + a ≤ MAX_RETRIES)
    (hr : r.status < 400) :
    safeGetAux (pre ++ r :: rest) a = (expectedSleeps pre a, .success r) := by
  induction pre generalizing a with
  | nil =>
    simpa [expectedSleeps] using safeGetAux_cons_ok r rest a hr
  | cons x pre' ih =>
    have hx : x.status = 429 := hpre x (by simp)
    simp only [List.length_cons] at hlen
    have hle : ¬ MAX_RETRIES < a + 1 := by omega
    rw [List.cons_append, safeGetAux_cons_429 x _ a hx hle,
      ih (a + 1) (fun y hy => hpre y (by simp [hy])) (by omega)]
    simp [expectedSleeps]

theorem safeGetAux_giveup (pre : List HttpResponse) (rest : List HttpResponse) (a : Nat)
    (hpre : ∀ x ∈ pre, x.status = 429) (hne : pre ≠ [])
    (hlen : pre.length + a = MAX_RETRIES + 1) :
    safeGetAux (pre ++ rest) a = (expectedSleeps (pre.take (MAX_RETRIES - a)) a, .httpError 429) := by
  induction pre generalizing a with
  | nil => exact absurd rfl hne
  | cons x pre' ih =>
    have hx : x.status = 429 := hpre x (by simp)
    simp only [List.length_cons] at hlen
    by_cases hcase : pre' = []
    · subst hcase
      simp only [List.length_nil] at hlen
      have ha : a = MAX_RETRIES := by omega
      subst ha
      rw [List.cons_append, safeGetAux_cons_giveup x _ MAX_RETRIES hx (by omega)]
      simp [expectedSleeps]
    · have h1 : 1 ≤ pre'.length := by
        cases pre' with
        | nil => exact absurd rfl hcase
        | cons _ _ => simp
      have hle : ¬ MAX_RETRIES < a + 1 := by omega
      rw [List.cons_append, safeGetAux_cons_429 x _ a hx hle,
        ih (a + 1) (fun y hy => hpre y (by simp [hy])) hcase (by omega)]
      have htake : (x :: pre').take (MAX_RETRIES - a) =
          x :: pre'.take (MAX_RETRIES - (a + 1)) := by
        have h1 : 1 ≤ pre'.length := by
          cases pre' with
          | nil => exact absurd rfl hcase
          | cons _ _ => simp
        have : MAX_RETRIES - a = (MAX_RETRIES - (a + 1)) + 1 := by
          simp only [MAX_RETRIES] at hlen ⊢
          omega
        rw [this, List.take_succ_cons]
      rw [htake]
      simp [expectedSleeps]

/-- C1: on each 429 response `_safe_get` sleeps `min(60, int(Retry-After))`
when that header is present and parses, else `min(60, 2 ** attempt)` with
`attempt` counting the 429s seen so far, and retries; after more than 6
retries it surfaces the 429 failure; any other 4xx/5xx status fails
immediately; a non-error status returns the response.  Three bare 429s
followed by a 200 give one success with sleeps 2, 4, 8. -/
theorem C1_rate_limit_retry :
    (∀ pre r rest, (∀ x ∈ pre, x.status = 429) → pre.length ≤ MAX_RETRIES → r.status < 400 →
      safeGet (pre ++ r :: rest) = (expectedSleeps pre 0, .success r))
    ∧ (∀ pre rest, (∀ x ∈ pre, x.status = 429) → pre.length = MAX_RETRIES + 1 →
      safeGet (pre ++ rest) = (expectedSleeps (pre.take MAX_RETRIES) 0, .httpError 429))
    ∧ (∀ r rest, r.status ≠ 429 → 400 ≤ r.status → r.status < 600 →
      safeGet (r :: rest) = ([], .httpError r.status))
    ∧ (∀ (s : String) (n : Int) r rest, s ≠ "" → s.toInt? = some n → r.status < 400 →
      safeGet (⟨429, some s, ""⟩ :: r :: rest) = ([min 60 n], .success r))
    ∧ safeGet [⟨429, none, ""⟩, ⟨429, none, ""⟩, ⟨429, none, ""⟩, ⟨200, none, "ok"⟩] =
        ([2, 4, 8], .success ⟨200, none, "ok"⟩) := by
  refine ⟨?_, ?_, ?_, ?_, ?_⟩
  · intro pre r rest hpre hlen hr
    exact safeGetAux_success pre r rest 0 hpre (by omega) hr
  · intro pre rest hpre hlen
    have := safeGetAux_giveup pre rest 0 hpre
      (by intro h; subst h; simp [MAX_RETRIES] at hlen) (by omega)
    simpa [safeGet] using this
  · intro r rest h429 h4 h6
    have hb : (decide (400 ≤ r.status) && decide (r.status < 600)) = true := by
      simp only [Bool.and_eq_true, decide_eq_true_eq]
      exact ⟨h4, h6⟩
    simp [safeGet, safeGetAux, h429, hb]
  · intro s n r rest hs hn hr
    have := safeGetAux_success [⟨429, some s, ""⟩] r rest 0 (by simp) (by simp [MAX_RETRIES]) hr
    simpa [safeGet, expectedSleeps, backoffWait, hs, hn] using this
  · decide

/-- Witness for C1: one 429 with `Retry-After: 5`, then a 200. -/
theorem C1_rate_limit_retry_witness :
    (∀ x ∈ ([⟨429, some "5", ""⟩] : List HttpResponse), x.status = 429) ∧
    ([⟨429, some "5", ""⟩] : List HttpResponse).length ≤ MAX_RETRIES ∧
    (⟨200, none, "ok"⟩ : HttpResponse).status < 400 ∧
    safeGet ([⟨429, some "5", ""⟩] ++ (⟨200, none, "ok"⟩ : HttpResponse) :: []) =
      (expectedSleeps [⟨429, some "5", ""⟩] 0, .success ⟨200, none, "ok"⟩) :=
  ⟨by intro x hx; simp at hx; subst hx; rfl, by decide, by decide,
    C1_rate_limit_retry.1 [⟨429, some "5", ""⟩] ⟨200, none, "ok"⟩ []
      (by intro x hx; simp at hx; subst hx; rfl) (by decide) (by decide)⟩

/-! ### C2: token caching and the absence of a re-auth retry -/

/-- C2 counterexample: the claim says a request failing with an
authentication failure is re-authenticated and retried once; but with a 401
response followed by an available 200, `_safe_get` surfaces the 401
immediately and never issues the retry. -/
theorem C2_no_reauth_counterexample :
    safeGet [⟨401, none, "expired"⟩, ⟨200, none, "ok"⟩] = ([], .httpError 401) ∧
    (([], GetResult.httpError 401) : List Int × GetResult) ≠
      ([], .success ⟨200, none, "ok"⟩) := by
  exact ⟨by decide, by decide⟩

/-- C2 amended: the bearer token is cached and reused across requests (a
truthy cached token is returned unchanged, without consulting the auth
endpoint), and a request issued with no cached token authenticates first and
caches the fresh token; but a request failing with an authentication failure
(HTTP 401) is not retried — the failure surfaces immediately. -/
theorem C2_token_cache :
    (∀ (t : String) (fresh : Option String), t ≠ "" →
      headersFn (some t) fresh = ("Bearer " ++ t, some t))
    ∧ (∀ fresh : String, headersFn none (some fresh) = ("Bearer " ++ fresh, some fresh))
    ∧ (∀ r rest, r.status = 401 → safeGet (r :: rest) = ([], .httpError 401)) := by
  refine ⟨?_, ?_, ?_⟩
  · intro t fresh ht
    have h : tokenTruthy (some t) = true := by simp [tokenTruthy, ht]
    simp [headersFn, h, renderToken]
  · intro fresh
    simp [headersFn, tokenTruthy, renderToken]
  · intro r rest h401
    have := safeGetAux_cons_err r rest 0 (by omega) (by omega) (by omega)
    simpa [safeGet, h401] using this

/-- Witness for C2. -/
theorem C2_token_cache_witness :
    headersFn (some "tok") (some "fresh") = ("Bearer " ++ "tok", some "tok") ∧
    safeGet [⟨401, none, ""⟩] = ([], .httpError 401) :=
  ⟨C2_token_cache.1 "tok" (some "fresh") (by decide),
    C2_token_cache.2.2 ⟨401, none, ""⟩ [] rfl⟩

/-! ### C3: the date-pair generator -/

/-- C3: the generator yields, in ascending order of `d0`, exactly the pairs
`(d0, d0 + 90)` with `d0` in the inclusive window 2026-01-01..2026-01-15 and
`d0 + 90` in the inclusive window 2026-04-01..2026-04-15; all 15 start dates
qualify, so exactly 15 pairs are produced. -/
theorem C3_date_pairs :
    generate_paris_osaka_exact90_pairs =
      (List.range 15).map (fun (i : Nat) => (DEPART_WINDOW_START + (i : Int), DEPART_WINDOW_START + (i : Int) + 90))
    ∧ generate_paris_osaka_exact90_pairs.length = 15
    ∧ toRD 2026 4 1 = toRD 2026 1 1 + 90
    ∧ toRD 2026 4 15 = toRD 2026 1 15 + 90
    ∧ (∀ d0 : Int, (d0, d0 + 90) ∈ generate_paris_osaka_exact90_pairs ↔
        (DEPART_WINDOW_START ≤ d0 ∧ d0 ≤ DEPART_WINDOW_END ∧
         toRD 2026 4 1 ≤ d0 + 90 ∧ d0 + 90 ≤ toRD 2026 4 15))
    ∧ List.Pairwise (fun a b => a < b) (generate_paris_osaka_exact90_pairs.map Prod.fst) := by
  have hform : generate_paris_osaka_exact90_pairs =
      (List.range 15).map (fun (i : Nat) => (DEPART_WINDOW_START + (i : Int), DEPART_WINDOW_START + (i : Int) + 90)) := by
    decide
  refine ⟨hform, by decide, by decide, by decide, ?_, by decide⟩
  intro d0
  have e1 : DEPART_WINDOW_START = (739617 : Int) := by decide
  have e2 : DEPART_WINDOW_END = (739631 : Int) := by decide
  have e3 : toRD 2026 4 1 = (739707 : Int) := by decide
  have e4 : toRD 2026 4 15 = (739721 : Int) := by decide
  rw [hform]
  simp only [List.mem_map, List.mem_range, Prod.mk.injEq, e1, e2, e3, e4]
  constructor
  · rintro ⟨i, hi, h1, h2⟩
    refine ⟨by omega, by omega, by omega, by omega⟩
  · rintro ⟨h1, h2, h3, h4⟩
    exact ⟨(d0 - 739617).toNat, by omega, by omega, by omega⟩

/-- Witness for C3: 2026-01-01 with its +90-day return date is generated. -/
theorem C3_date_pairs_witness :
    ((739617 : Int), (739617 : Int) + 90) ∈ generate_paris_osaka_exact90_pairs :=
  (C3_date_pairs.2.2.2.2.1 739617).mpr ⟨by decide, by decide, by decide, by decide⟩

/-! ### Decimal rendering of naturals, for quantified parser theorems -/

/-- Fuel-driven decimal rendering of a positive natural (most significant
digit first); `fuel ≥ n` makes it total. -/
def natDigitsAux : Nat → Nat → List Char
  | 0, _ => []
  | fuel + 1, n => if n = 0 then [] else natDigitsAux fuel (n / 10) ++ [Char.ofNat (48 + n % 10)]

/-- Standard decimal rendering of a natural number. -/
def digitsOf (n : Nat) : List Char := if n = 0 then ['0'] else natDigitsAux n n

theorem char_digit_toNat (d : Nat) (h : d < 10) : (Char.ofNat (48 + d)).toNat = 48 + d := by
  interval_cases d <;> decide

theorem char_digit_isDigit (d : Nat) (h : d < 10) : isDigitChar (Char.ofNat (48 + d)) = true := by
  interval_cases d <;> decide

theorem digitsToNat_append (l : List Char) (c : Char) :
    digitsToNat (l ++ [c]) = 10 * digitsToNat l + (c.toNat - 48) := by
  simp [digitsToNat, List.foldl_append, Nat.mul_comm]

theorem digitsToNat_natDigitsAux (fuel : Nat) :
    ∀ n : Nat, n ≤ fuel → digitsToNat (natDigitsAux fuel n) = n := by
  induction fuel with
  | zero =>
    intro n hn
    have : n = 0 := by omega
    subst this
    rfl
  | succ fuel ih =>
    intro n hn
    by_cases h0 : n = 0
    · subst h0; rfl
    · simp only [natDigitsAux, if_neg h0]
      rw [digitsToNat_append, ih (n / 10) (by omega),
        char_digit_toNat (n % 10) (Nat.mod_lt _ (by norm_num))]
      omega

theorem natDigitsAux_digits (fuel : Nat) :
    ∀ n : Nat, ∀ c ∈ natDigitsAux fuel n, isDigitChar c = true := by
  induction fuel with
  | zero => intro n c hc; simp [natDigitsAux] at hc
  | succ fuel ih =>
    intro n c hc
    by_cases h0 : n = 0
    · subst h0; simp [natDigitsAux] at hc
    · simp only [natDigitsAux, if_neg h0, List.mem_append, List.mem_singleton] at hc
      rcases hc with hc | hc
      · exact ih (n / 10) c hc
      · subst hc; exact char_digit_isDigit (n % 10) (Nat.mod_lt _ (by norm_num))

theorem digitsOf_digits (n : Nat) : ∀ c ∈ digitsOf n, isDigitChar c = true := by
  unfold digitsOf
  split
  · intro c hc; simp at hc; subst hc; decide
  · exact natDigitsAux_digits n n

theorem digitsOf_ne_nil (n : Nat) : digitsOf n ≠ [] := by
  unfold digitsOf
  split
  · simp
  · rename_i h0
    cases n with
    | zero => exact absurd rfl h0
    | succ k => simp [natDigitsAux, h0]

theorem digitsToNat_digitsOf (n : Nat) : digitsToNat (digitsOf n) = n := by
  unfold digitsOf
  split
  · rename_i h0; subst h0; rfl
  · exact digitsToNat_natDigitsAux n n le_rfl

/-! ### Evaluation lemmas for the string pipeline -/

theorem takeWhile_all (p : Char → Bool) :
    ∀ l : List Char, (∀ c ∈ l, p c = true) → (l.takeWhile p = l ∧ l.dropWhile p = [])
  | [], _ => ⟨rfl, rfl⟩
  | c :: cs, h => by
    have hc : p c = true := h c (by simp)
    have ih := takeWhile_all p cs (fun x hx => h x (by simp [hx]))
    simp [List.takeWhile_cons, List.dropWhile_cons, hc, ih.1, ih.2]

theorem parseFloatMag_digits (l : List Char) (hne : l ≠ [])
    (hd : ∀ c ∈ l, isDigitChar c = true) :
    parseFloatMag l 1 = .ok ((digitsToNat l : ℚ)) := by
  obtain ⟨ht, hdrop⟩ := takeWhile_all isDigitChar l hd
  have hle : l.isEmpty = false := by
    cases l with
    | nil => exact absurd rfl hne
    | cons _ _ => rfl
  simp [parseFloatMag, ht, hdrop, hle, one_mul]

theorem parseFloatChars_digits (l : List Char) (hne : l ≠ [])
    (hd : ∀ c ∈ l, isDigitChar c = true) :
    parseFloatChars l = .ok ((digitsToNat l : ℚ)) := by
  cases l with
  | nil => exact absurd rfl hne
  | cons c cs =>
    have hc : isDigitChar c = true := hd c (by simp)
    have hm : ¬ ((c :: cs).head? = some '-') := by
      simp only [List.head?_cons, Option.some.injEq]
      rintro rfl
      exact absurd hc (by decide)
    have hp : ¬ ((c :: cs).head? = some '+') := by
      simp only [List.head?_cons, Option.some.injEq]
      rintro rfl
      exact absurd hc (by decide)
    unfold parseFloatChars
    rw [if_neg hm, if_neg hp]
    exact parseFloatMag_digits (c :: cs) hne hd

theorem pyLowerChar_digit (c : Char) (h : isDigitChar c = true) : pyLowerChar c = c := by
  simp only [isDigitChar, Bool.and_eq_true, decide_eq_true_eq] at h
  unfold pyLowerChar
  rw [if_neg]
  simp only [Bool.and_eq_true, decide_eq_true_eq, not_and]
  omega

theorem map_pyLower_digits :
    ∀ l : List Char, (∀ c ∈ l, isDigitChar c = true) → l.map pyLowerChar = l
  | [], _ => rfl
  | c :: cs, h => by
    have hc := pyLowerChar_digit c (h c (by simp))
    simp only [List.map_cons, hc, map_pyLower_digits cs (fun x hx => h x (by simp [hx]))]

theorem containsChar_append (c : Char) :
    ∀ l1 l2 : List Char, containsChar c (l1 ++ l2) = (containsChar c l1 || containsChar c l2)
  | [], l2 => by simp [containsChar]
  | x :: xs, l2 => by
    simp [containsChar, containsChar_append c xs l2, Bool.or_assoc]

theorem containsChar_false (c : Char) :
    ∀ l : List Char, (∀ x ∈ l, x ≠ c) → containsChar c l = false
  | [], _ => rfl
  | x :: xs, h => by
    simp [containsChar, h x (by simp),
      containsChar_false c xs (fun y hy => h y (by simp [hy]))]

theorem digit_not_char (x : Char) (hx : isDigitChar x = true) (c : Char)
    (hc : isDigitChar c = false) : x ≠ c := by
  rintro rfl
  rw [hx] at hc
  simp at hc

theorem splitChar_no (c : Char) :
    ∀ l : List Char, containsChar c l = false → splitChar c l = [l]
  | [], _ => rfl
  | x :: xs, h => by
    simp only [containsChar, Bool.or_eq_false_iff, decide_eq_false_iff_not] at h
    simp [splitChar, h.1, splitChar_no c xs h.2]

theorem splitChar_app (c : Char) :
    ∀ l1 l2 : List Char, containsChar c l1 = false →
      splitChar c (l1 ++ c :: l2) = l1 :: splitChar c l2
  | [], l2, _ => by simp [splitChar]
  | x :: xs, l2, h => by
    simp only [containsChar, Bool.or_eq_false_iff, decide_eq_false_iff_not] at h
    simp [splitChar, h.1, splitChar_app c xs l2 h.2]

theorem replacePT_no_P :
    ∀ l : List Char, (∀ x ∈ l, x ≠ 'P') → replacePT l = l
  | [], _ => rfl
  | [c], _ => rfl
  | c1 :: c2 :: rest, h => by
    have h1 : c1 ≠ 'P' := h c1 (by simp)
    have hcond : (decide (c1 = 'P') && decide (c2 = 'T')) = false := by simp [h1]
    simp only [replacePT, hcond, Bool.false_eq_true, if_false]
    exact congrArg (List.cons c1)
      (replacePT_no_P (c2 :: rest) (fun x hx => h x (List.mem_cons_of_mem c1 hx)))

/-! ### Symbolic evaluation of the duration parser on well-formed tokens -/

theorem parse_hm (dh dm : List Char) (hH hM : Char)
    (hdh : ∀ c ∈ dh, isDigitChar c = true) (hdm : ∀ c ∈ dm, isDigitChar c = true)
    (hdhne : dh ≠ []) (hdmne : dm ≠ [])
    (hHc : hH = 'H' ∨ hH = 'h') (hMc : hM = 'M' ∨ hM = 'm') :
    parse_duration_chars ('P' :: 'T' :: (dh ++ hH :: (dm ++ [hM])))
      = .ok ((digitsToNat dh : ℚ) + (digitsToNat dm : ℚ) / 60) := by
  have hbody_noP : ∀ x ∈ dh ++ hH :: (dm ++ [hM]), x ≠ 'P' := by
    intro x hx
    simp only [List.mem_append, List.mem_cons, List.mem_singleton,
      List.not_mem_nil, or_false] at hx
    rcases hx with hx | hx | hx | hx
    · exact digit_not_char x (hdh x hx) 'P' (by decide)
    · subst hx; rcases hHc with rfl | rfl <;> decide
    · exact digit_not_char x (hdm x hx) 'P' (by decide)
    · subst hx; rcases hMc with rfl | rfl <;> decide
  have hPT : (decide ('P' = 'P') && decide ('T' = 'T')) = true := by decide
  have hrep : replacePT ('P' :: 'T' :: (dh ++ hH :: (dm ++ [hM])))
      = dh ++ hH :: (dm ++ [hM]) := by
    simp only [replacePT, hPT, if_true]
    exact replacePT_no_P _ hbody_noP
  have hHl : pyLowerChar hH = 'h' := by rcases hHc with rfl | rfl <;> decide
  have hMl : pyLowerChar hM = 'm' := by rcases hMc with rfl | rfl <;> decide
  have hlow : (dh ++ hH :: (dm ++ [hM])).map pyLowerChar = dh ++ 'h' :: (dm ++ ['m']) := by
    simp only [List.map_append, List.map_cons, List.map_nil, hHl, hMl,
      map_pyLower_digits dh hdh, map_pyLower_digits dm hdm]
  have hdh_noh : containsChar 'h' dh = false :=
    containsChar_false _ _ (fun x hx => digit_not_char x (hdh x hx) 'h' (by decide))
  have hdm_nom : containsChar 'm' dm = false :=
    containsChar_false _ _ (fun x hx => digit_not_char x (hdm x hx) 'm' (by decide))
  have hdm_noh : containsChar 'h' (dm ++ ['m']) = false := by
    rw [containsChar_append]
    rw [containsChar_false 'h' dm
      (fun x hx => digit_not_char x (hdm x hx) 'h' (by decide))]
    decide
  have hch : containsChar 'h' (dh ++ 'h' :: (dm ++ ['m'])) = true := by
    rw [containsChar_append]
    simp [containsChar, hdh_noh]
  have hsplit : splitChar 'h' (dh ++ 'h' :: (dm ++ ['m'])) = [dh, dm ++ ['m']] := by
    rw [splitChar_app 'h' dh _ hdh_noh, splitChar_no 'h' _ hdm_noh]
  have hcm : containsChar 'm' (dm ++ ['m']) = true := by
    rw [containsChar_append, hdm_nom]
    decide
  have hsplitm : splitChar 'm' (dm ++ ['m']) = [dm, []] := by
    have : dm ++ ['m'] = dm ++ 'm' :: [] := rfl
    rw [this, splitChar_app 'm' dm [] hdm_nom]
    rfl
  have hdhE : dh.isEmpty = false := by
    cases dh with
    | nil => exact absurd rfl hdhne
    | cons _ _ => rfl
  have hdmE : dm.isEmpty = false := by
    cases dm with
    | nil => exact absurd rfl hdmne
    | cons _ _ => rfl
  unfold parse_duration_chars
  rw [hrep, hlow]
  simp only [List.isEmpty_cons, Bool.false_eq_true, if_false, List.take_succ_cons,
    List.take_zero, not_true, hch, if_true, hsplit, List.headD_cons, List.tail_cons,
    hdhE, parseFloatChars_digits dh hdhne hdh, hcm, hsplitm, hdmE,
    parseFloatChars_digits dm hdmne hdm]
  rfl

theorem parse_h (dh : List Char) (hH : Char)
    (hdh : ∀ c ∈ dh, isDigitChar c = true) (hdhne : dh ≠ [])
    (hHc : hH = 'H' ∨ hH = 'h') :
    parse_duration_chars ('P' :: 'T' :: (dh ++ [hH])) = .ok ((digitsToNat dh : ℚ)) := by
  have hbody_noP : ∀ x ∈ dh ++ [hH], x ≠ 'P' := by
    intro x hx
    simp only [List.mem_append, List.mem_cons, List.mem_singleton,
      List.not_mem_nil, or_false] at hx
    rcases hx with hx | hx
    · exact digit_not_char x (hdh x hx) 'P' (by decide)
    · subst hx; rcases hHc with rfl | rfl <;> decide
  have hPT : (decide ('P' = 'P') && decide ('T' = 'T')) = true := by decide
  have hrep : replacePT ('P' :: 'T' :: (dh ++ [hH])) = dh ++ [hH] := by
    simp only [replacePT, hPT, if_true]
    exact replacePT_no_P _ hbody_noP
  have hHl : pyLowerChar hH = 'h' := by rcases hHc with rfl | rfl <;> decide
  have hlow : (dh ++ [hH]).map pyLowerChar = dh ++ ['h'] := by
    simp only [List.map_append, List.map_cons, List.map_nil, hHl,
      map_pyLower_digits dh hdh]
  have hdh_noh : containsChar 'h' dh = false :=
    containsChar_false _ _ (fun x hx => digit_not_char x (hdh x hx) 'h' (by decide))
  have hch : containsChar 'h' (dh ++ ['h']) = true := by
    rw [containsChar_append, hdh_noh]
    decide
  have hsplit : splitChar 'h' (dh ++ ['h']) = [dh, []] := by
    have : dh ++ ['h'] = dh ++ 'h' :: [] := rfl
    rw [this, splitChar_app 'h' dh [] hdh_noh]
    rfl
  have hdhE : dh.isEmpty = false := by
    cases dh with
    | nil => exact absurd rfl hdhne
    | cons _ _ => rfl
  unfold parse_duration_chars
  rw [hrep, hlow]
  simp only [List.isEmpty_cons, Bool.false_eq_true, if_false, List.take_succ_cons,
    List.take_zero, not_true, hch, if_true, hsplit, List.headD_cons, List.tail_cons,
    hdhE, parseFloatChars_digits dh hdhne hdh]
  exact congrArg Except.ok (by norm_num)

theorem parse_m (dm : List Char) (hM : Char)
    (hdm : ∀ c ∈ dm, isDigitChar c = true) (hdmne : dm ≠ [])
    (hMc : hM = 'M' ∨ hM = 'm') :
    parse_duration_chars ('P' :: 'T' :: (dm ++ [hM])) = .ok ((digitsToNat dm : ℚ) / 60) := by
  have hbody_noP : ∀ x ∈ dm ++ [hM], x ≠ 'P' := by
    intro x hx
    simp only [List.mem_append, List.mem_cons, List.mem_singleton,
      List.not_mem_nil, or_false] at hx
    rcases hx with hx | hx
    · exact digit_not_char x (hdm x hx) 'P' (by decide)
    · subst hx; rcases hMc with rfl | rfl <;> decide
  have hPT : (decide ('P' = 'P') && decide ('T' = 'T')) = true := by decide
  have hrep : replacePT ('P' :: 'T' :: (dm ++ [hM])) = dm ++ [hM] := by
    simp only [replacePT, hPT, if_true]
    exact replacePT_no_P _ hbody_noP
  have hMl : pyLowerChar hM = 'm' := by rcases hMc with rfl | rfl <;> decide
  have hlow : (dm ++ [hM]).map pyLowerChar = dm ++ ['m'] := by
    simp only [List.map_append, List.map_cons, List.map_nil, hMl,
      map_pyLower_digits dm hdm]
  have hdm_noh : containsChar 'h' (dm ++ ['m']) = false := by
    rw [containsChar_append]
    rw [containsChar_false 'h' dm
      (fun x hx => digit_not_char x (hdm x hx) 'h' (by decide))]
    decide
  have hdm_nom : containsChar 'm' dm = false :=
    containsChar_false _ _ (fun x hx => digit_not_char x (hdm x hx) 'm' (by decide))
  have hcm : containsChar 'm' (dm ++ ['m']) = true := by
    rw [containsChar_append, hdm_nom]
    decide
  have hfilter : (dm ++ ['m']).filter (fun c => c ≠ 'm') = dm := by
    rw [List.filter_append]
    have h1 : dm.filter (fun c => c ≠ 'm') = dm :=
      List.filter_eq_self.mpr (fun x hx => by
        simp [digit_not_char x (hdm x hx) 'm' (by decide)])
    have h2 : (['m'] : List Char).filter (fun c => c ≠ 'm') = [] := by decide
    rw [h1, h2, List.append_nil]
  have hdmE : dm.isEmpty = false := by
    cases dm with
    | nil => exact absurd rfl hdmne
    | cons _ _ => rfl
  unfold parse_duration_chars
  rw [hrep, hlow]
  simp only [List.isEmpty_cons, Bool.false_eq_true, if_false, List.take_succ_cons,
    List.take_zero, not_true, hdm_noh, if_false, hcm, if_true, hfilter, hdmE,
    parseFloatChars_digits dm hdmne hdm]
  exact congrArg Except.ok (by norm_num)

/-! ### C7 and C8: the duration parser -/

/-- The hour marker in either letter case. -/
def hChar (b : Bool) : Char := if b then 'H' else 'h'

/-- The minute marker in either letter case. -/
def mChar (b : Bool) : Char := if b then 'M' else 'm'

/-- C7 counterexample: the claim admits the prefix in either letter case, but
`iso.startswith("PT")` is case-sensitive, so the all-lowercase token
`"pt2h30m"` parses to 0.0 instead of 2.5. -/
theorem C7_lowercase_counterexample :
    parse_duration_hours "pt2h30m" = .ok 0 ∧
    parse_duration_hours "pt2h30m" ≠ .ok (5/2) := by
  have he : parse_duration_hours "pt2h30m" = .ok 0 := by with_unfolding_all decide
  refine ⟨he, ?_⟩
  rw [he]
  with_unfolding_all decide

/-- C7 (amended): for every token `"PT<hours>H<minutes>M"` whose `PT` prefix
is uppercase (as the case-sensitive `startswith` check requires), with either
component optional and with the `H`/`M` markers in either letter case, the
parser returns hours + minutes/60; in particular `"PT2H30M"` yields 2.5,
`"PT45M"` yields 0.75 and `"PT10H"` yields 10.0. -/
theorem C7_duration_parse :
    (∀ (h m : Nat) (hc mc : Bool),
      parse_duration_hours
          (String.mk ('P' :: 'T' :: (digitsOf h ++ hChar hc :: (digitsOf m ++ [mChar mc]))))
        = .ok ((h : ℚ) + (m : ℚ) / 60))
    ∧ (∀ (h : Nat) (hc : Bool),
      parse_duration_hours (String.mk ('P' :: 'T' :: (digitsOf h ++ [hChar hc])))
        = .ok ((h : ℚ)))
    ∧ (∀ (m : Nat) (mc : Bool),
      parse_duration_hours (String.mk ('P' :: 'T' :: (digitsOf m ++ [mChar mc])))
        = .ok ((m : ℚ) / 60))
    ∧ parse_duration_hours "PT2H30M" = .ok (5/2)
    ∧ parse_duration_hours "PT45M" = .ok (3/4)
    ∧ parse_duration_hours "PT10H" = .ok 10 := by
  refine ⟨?_, ?_, ?_, by with_unfolding_all decide, by with_unfolding_all decide,
    by with_unfolding_all decide⟩
  · intro h m hc mc
    have hp := parse_hm (digitsOf h) (digitsOf m) (hChar hc) (mChar mc)
      (digitsOf_digits h) (digitsOf_digits m) (digitsOf_ne_nil h) (digitsOf_ne_nil m)
      (by cases hc <;> simp [hChar]) (by cases mc <;> simp [mChar])
    show parse_duration_chars
        ('P' :: 'T' :: (digitsOf h ++ hChar hc :: (digitsOf m ++ [mChar mc]))) = _
    rw [hp, digitsToNat_digitsOf, digitsToNat_digitsOf]
  · intro h hc
    have hp := parse_h (digitsOf h) (hChar hc) (digitsOf_digits h) (digitsOf_ne_nil h)
      (by cases hc <;> simp [hChar])
    show parse_duration_chars ('P' :: 'T' :: (digitsOf h ++ [hChar hc])) = _
    rw [hp, digitsToNat_digitsOf]
  · intro m mc
    have hp := parse_m (digitsOf m) (mChar mc) (digitsOf_digits m) (digitsOf_ne_nil m)
      (by cases mc <;> simp [mChar])
    show parse_duration_chars ('P' :: 'T' :: (digitsOf m ++ [mChar mc])) = _
    rw [hp, digitsToNat_digitsOf]

/-- Witness for C7: the general theorem applied at hours 2, minutes 30,
uppercase markers. -/
theorem C7_duration_parse_witness :
    parse_duration_hours
        (String.mk ('P' :: 'T' :: (digitsOf 2 ++ hChar true :: (digitsOf 30 ++ [mChar true]))))
      = .ok ((2 : ℚ) + (30 : ℚ) / 60) :=
  C7_duration_parse.1 2 30 true true

/-- C8 counterexample: the claim says every malformed input yields 0.0 and
never raises, but `"PTxH"` reaches `float("x")`, which raises `ValueError`. -/
theorem C8_malformed_counterexample :
    parse_duration_hours "PTxH" = .error () ∧
    ∀ q : ℚ, parse_duration_hours "PTxH" ≠ .ok q := by
  have he : parse_duration_hours "PTxH" = .error () := by with_unfolding_all decide
  refine ⟨he, fun q h => ?_⟩
  rw [he] at h
  exact Except.noConfusion h

/-- C8 (amended): empty input, inputs without the uppercase `PT` prefix, and
the bare token `"PT"` all yield 0.0 without error; but an input whose numeric
component fails `float` parsing (such as `"PTxH"`) raises a `ValueError`,
which is only caught upstream by the offer evaluator (which then returns a
failing evaluation with default metrics). -/
theorem C8_lenient_and_raising :
    parse_duration_hours "" = .ok 0
    ∧ parse_duration_hours "PT" = .ok 0
    ∧ (∀ s : String, ¬ (s.toList.take 2 = ['P', 'T']) → parse_duration_hours s = .ok 0)
    ∧ parse_duration_hours "PTxH" = .error ()
    ∧ offer_meets_rules (JSON.obj [("itineraries",
        JSON.arr [JSON.obj [("segments", JSON.arr []), ("duration", JSON.str "PTxH")]])])
      = (false, defaultMetrics) := by
  refine ⟨by with_unfolding_all decide, by with_unfolding_all decide, ?_,
    by with_unfolding_all decide, by with_unfolding_all decide⟩
  intro s hs
  unfold parse_duration_hours parse_duration_chars
  by_cases he : s.toList.isEmpty = true
  · rw [if_pos he]
  · rw [if_neg he, if_pos hs]

/-- Witness for C8: a string without the `PT` prefix parses to 0.0. -/
theorem C8_lenient_and_raising_witness :
    ¬ (("zz" : String).toList.take 2 = ['P', 'T']) ∧ parse_duration_hours "zz" = .ok 0 :=
  ⟨by decide, C8_lenient_and_raising.2.2.1 "zz" (by decide)⟩

/-! ### C4 and C9: the offer evaluator

For C4 (a refinement claim) a typed offer record is defined following the
claim's words, encoded into the JSON shape the source consumes, and the
evaluator's verdict is characterised against spec-side definitions. -/

/-- One fare-details-by-segment entry: `bags = none` if
`includedCheckedBags` is absent (or not a dict), `some none` if it is a dict
without a `quantity`, `some (some q)` if it carries quantity `q`. -/
structure FareDetailT where
  bags : Option (Option ℚ)

/-- One itinerary: its number of segments and its duration token. -/
structure ItinT where
  segments : Nat
  duration : String

/-- A well-shaped offer record. -/
structure OfferT where
  itineraries : List ItinT
  travelerPricings : List (List FareDetailT)
  codes : List String

def encodeFD (fd : FareDetailT) : JSON :=
  JSON.obj (match fd.bags with
    | none => []
    | some none => [("includedCheckedBags", JSON.obj [])]
    | some (some q) => [("includedCheckedBags", JSON.obj [("quantity", JSON.num q)])])

def encodeTP (tp : List FareDetailT) : JSON :=
  JSON.obj [("fareDetailsBySegment", JSON.arr (tp.map encodeFD))]

def encodeItin (it : ItinT) : JSON :=
  JSON.obj [("segments", JSON.arr (List.replicate it.segments (JSON.obj []))),
            ("duration", JSON.str it.duration)]

def encodeOffer (o : OfferT) : JSON :=
  JSON.obj [("itineraries", JSON.arr (o.itineraries.map encodeItin)),
            ("travelerPricings", JSON.arr (o.travelerPricings.map encodeTP)),
            ("validatingAirlineCodes", JSON.arr (o.codes.map JSON.str))]

/-- Spec-side (from the claim's words): maximum per-itinerary stop count,
each stop count being segment count minus 1 clamped to be non-negative. -/
def specMaxStops (o : OfferT) : Nat :=
  (o.itineraries.map (fun it => it.segments - 1)).foldr max 0

/-- Spec-side: the parsed duration of one itinerary (total under the
well-formedness hypothesis of C4). -/
def specDuration (it : ItinT) : ℚ :=
  match parse_duration_hours it.duration with
  | .ok q => q
  | .error _ => 0

/-- Spec-side: total duration accumulated across itineraries. -/
def specTotalHours (o : OfferT) : ℚ := (o.itineraries.map specDuration).sum

/-- Spec-side: some traveler's fare-detail entry reports an
included-checked-bag quantity greater than 0. -/
def specBagIncluded (o : OfferT) : Prop :=
  ∃ tp ∈ o.travelerPricings, ∃ fd ∈ tp, ∃ q, fd.bags = some (some q) ∧ 0 < q

/-- The layover list the evaluator computes: 1.5 hours per multi-segment
itinerary. -/
def specLayovers (l : List ItinT) : List ℚ :=
  l.filterMap (fun it => if 1 < it.segments then some ((3 : ℚ)/2) else none)

/-- The per-entry baggage verdict of the inner loop. -/
def specFDBag (fd : FareDetailT) : Bool :=
  match fd.bags with
  | some (some q) => decide (0 < q)
  | _ => false

theorem except_bind_ok {α β : Type} (a : α) (f : α → Except Unit β) :
    (Except.ok a >>= f : Except Unit β) = f a := rfl

theorem specDuration_eq (it : ItinT)
    (h : (parse_duration_hours it.duration).isOk = true) :
    parse_duration_hours it.duration = .ok (specDuration it) := by
  unfold specDuration
  cases hh : parse_duration_hours it.duration with
  | ok q => simp
  | error e => rw [hh] at h; simp [Except.isOk, Except.toBool] at h

theorem parseDurationJSON_str (s : String) :
    parseDurationJSON (.str s) = parse_duration_hours s := by
  unfold parseDurationJSON
  by_cases h : s = ""
  · subst h; rfl
  · have ht : jtruthy (.str s) = true := by simp [jtruthy, h]
    simp [ht]

theorem processItins_encode :
    ∀ (l : List ItinT), (∀ it ∈ l, (parse_duration_hours it.duration).isOk = true) →
    ∀ (h : ℚ) (s : Nat) (ls : List ℚ),
    processItins (l.map encodeItin) h s ls =
      .ok (h + (l.map specDuration).sum,
           max s ((l.map (fun it => it.segments - 1)).foldr max 0),
           ls ++ specLayovers l)
  | [], _, h, s, ls => by
    simp [processItins, specLayovers]
  | it :: rest, hd, h, s, ls => by
    have hparse : parse_duration_hours it.duration = .ok (specDuration it) :=
      specDuration_eq it (hd it (by simp))
    have h1 : jgetD (encodeItin it) "segments" (.arr [])
        = .ok (.arr (List.replicate it.segments (.obj []))) := rfl
    have h2 : jgetD (encodeItin it) "duration" (.str "PT0H") = .ok (.str it.duration) := rfl
    have h3 : jlen (.arr (List.replicate it.segments (.obj []))) = .ok it.segments := by
      simp [jlen]
    have ih := processItins_encode rest (fun x hx => hd x (by simp [hx]))
      (h + specDuration it) (max s (it.segments - 1))
      (ls ++ if 1 < it.segments then [(3 : ℚ)/2] else [])
    simp only [List.map_cons, processItins, h1, except_bind_ok, h3, h2,
      parseDurationJSON_str, hparse, ih]
    have hlay : specLayovers (it :: rest) =
        (if 1 < it.segments then [(3 : ℚ)/2] else []) ++ specLayovers rest := by
      by_cases hseg : 1 < it.segments <;> simp [specLayovers, List.filterMap_cons, hseg]
    rw [hlay]
    simp [List.sum_cons, List.foldr_cons, add_assoc, Nat.max_assoc, List.append_assoc]

theorem bagInner_cons_eval (fd : FareDetailT) (rest : List JSON) (b : Bool) :
    bagInner (encodeFD fd :: rest) b = bagInner rest (b || specFDBag fd) := by
  rcases hfd : fd.bags with _ | _ | q
  · simp [bagInner, encodeFD, hfd, jgetD, jlookup, specFDBag, except_bind_ok, pyOrZero,
      jtruthy, jgtZero]
  · simp [bagInner, encodeFD, hfd, jgetD, jlookup, specFDBag, except_bind_ok, pyOrZero,
      jtruthy, jgtZero]
  · by_cases hq : q = 0
    · subst hq
      simp [bagInner, encodeFD, hfd, jgetD, jlookup, specFDBag, except_bind_ok, pyOrZero,
        jtruthy, jgtZero]
    · have ht : jtruthy (.num q) = true := by simp [jtruthy, hq]
      simp [bagInner, encodeFD, hfd, jgetD, jlookup, specFDBag, except_bind_ok, pyOrZero,
        ht, jgtZero]

theorem bagInner_encode :
    ∀ (l : List FareDetailT) (b : Bool),
      bagInner (l.map encodeFD) b = .ok (b || l.any specFDBag)
  | [], b => by simp [bagInner]
  | fd :: rest, b => by
    rw [List.map_cons, bagInner_cons_eval, bagInner_encode rest (b || specFDBag fd)]
    simp [List.any_cons, Bool.or_assoc, Bool.or_comm (specFDBag fd)]

theorem bagLoop_encode :
    ∀ (l : List (List FareDetailT)) (b : Bool),
      bagLoop (l.map encodeTP) b = .ok (b || l.any (fun tp => tp.any specFDBag))
  | [], b => by simp [bagLoop]
  | tp :: rest, b => by
    have h1 : jgetD (encodeTP tp) "fareDetailsBySegment" (.arr [])
        = .ok (.arr (tp.map encodeFD)) := rfl
    simp only [List.map_cons, bagLoop, h1, except_bind_ok, jiter,
      bagInner_encode tp b, bagLoop_encode rest (b || tp.any specFDBag)]
    simp [List.any_cons, Bool.or_assoc]

theorem premiumAny_strs :
    ∀ l : List String,
      premiumAny (l.map JSON.str) = .ok (l.any (fun s => PREMIUM_CODES.contains s))
  | [] => rfl
  | s :: rest => by
    simp only [List.map_cons, premiumAny, except_bind_ok]
    by_cases hs : s ∈ PREMIUM_CODES
    · simp [hs]
    · simp [hs, premiumAny_strs rest]

theorem specFDBag_iff (fd : FareDetailT) :
    specFDBag fd = true ↔ ∃ q, fd.bags = some (some q) ∧ 0 < q := by
  rcases hfd : fd.bags with _ | _ | q <;> simp [specFDBag, hfd]

theorem specBag_iff (o : OfferT) :
    (o.travelerPricings.any (fun tp => tp.any specFDBag) = true) ↔ specBagIncluded o := by
  simp [List.any_eq_true, specBagIncluded, specFDBag_iff]

/-- Fully symbolic evaluation of the `try` body on an encoded well-shaped
offer whose durations parse. -/
theorem omrBody_encode (o : OfferT)
    (hd : ∀ it ∈ o.itineraries, (parse_duration_hours it.duration).isOk = true) :
    omrBody (encodeOffer o) = .ok
      (decide (specMaxStops o ≤ MAX_STOPS) && decide (specTotalHours o < MAX_DURATION_HOURS) &&
        (!BAGGAGE_REQUIRED || o.travelerPricings.any (fun tp => tp.any specFDBag)),
       { total_hours := specTotalHours o, stops := specMaxStops o,
         bag_included := o.travelerPricings.any (fun tp => tp.any specFDBag),
         premium := o.codes.any (fun s => PREMIUM_CODES.contains s),
         layovers := specLayovers o.itineraries }) := by
  have h1 : jgetD (encodeOffer o) "itineraries" (.arr [])
      = .ok (.arr (o.itineraries.map encodeItin)) := rfl
  have h2 : jgetD (encodeOffer o) "travelerPricings" (.arr [])
      = .ok (.arr (o.travelerPricings.map encodeTP)) := rfl
  have h3 : jgetD (encodeOffer o) "validatingAirlineCodes" (.arr [])
      = .ok (.arr (o.codes.map JSON.str)) := rfl
  unfold omrBody
  simp only [h1, h2, h3, except_bind_ok, jiter,
    processItins_encode o.itineraries hd 0 0 [],
    bagLoop_encode o.travelerPricings false,
    premiumAny_strs o.codes]
  simp only [specTotalHours, specMaxStops, Nat.zero_max, zero_add, List.nil_append]
  rfl

/-- C4: on every well-shaped offer record whose durations parse, the
evaluator passes exactly when the maximum per-itinerary stop count (segment
count − 1, clamped) is at most 1, the accumulated duration is strictly below
25 hours, and (baggage being required) some traveler's fare-detail entry has
an included-checked-bag quantity > 0; the returned metrics agree. -/
theorem C4_pass_condition (o : OfferT)
    (hd : ∀ it ∈ o.itineraries, (parse_duration_hours it.duration).isOk = true) :
    ((offer_meets_rules (encodeOffer o)).1 = true ↔
      (specMaxStops o ≤ 1 ∧ specTotalHours o < 25 ∧ specBagIncluded o))
    ∧ (offer_meets_rules (encodeOffer o)).2.total_hours = specTotalHours o
    ∧ (offer_meets_rules (encodeOffer o)).2.stops = specMaxStops o
    ∧ ((offer_meets_rules (encodeOffer o)).2.bag_included = true ↔ specBagIncluded o) := by
  have hbody := omrBody_encode o hd
  unfold offer_meets_rules
  rw [hbody]
  refine ⟨?_, rfl, rfl, specBag_iff o⟩
  simp only [MAX_STOPS, MAX_DURATION_HOURS, BAGGAGE_REQUIRED, Bool.not_true, Bool.false_or,
    Bool.and_eq_true, decide_eq_true_eq, specBag_iff o, and_assoc]

/-- The concrete passing offer of the spec's test list: one itinerary of 2
segments (1 stop), 20 hours, one included checked bag. -/
def exPassingOffer : OfferT :=
  { itineraries := [⟨2, "PT20H"⟩], travelerPricings := [[⟨some (some 1)⟩]], codes := [] }

/-- Witness for C4: the 2-segment 20-hour bag-included offer passes. -/
theorem C4_pass_condition_witness :
    (∀ it ∈ exPassingOffer.itineraries, (parse_duration_hours it.duration).isOk = true)
    ∧ (offer_meets_rules (encodeOffer exPassingOffer)).1 = true := by
  have hh : ∀ it ∈ exPassingOffer.itineraries, (parse_duration_hours it.duration).isOk = true := by
    intro it hit
    simp only [exPassingOffer, List.mem_singleton] at hit
    subst hit
    with_unfolding_all decide
  refine ⟨hh, ((C4_pass_condition exPassingOffer hh).1).mpr ⟨?_, ?_, ?_⟩⟩
  · decide
  · with_unfolding_all decide
  · exact ⟨[⟨some (some 1)⟩], by simp [exPassingOffer], ⟨some (some 1)⟩, by simp,
      1, rfl, by norm_num⟩

/-- C9: the evaluator never raises past its boundary: every input yields a
value, and whenever the `try` body fails internally the result is `False`
with all metrics at their defaults (0.0 hours, 0 stops, no bag, no premium,
no layovers); malformed records of several shapes are caught. -/
theorem C9_fail_closed :
    (∀ j : JSON, (omrBody j).isOk = false → offer_meets_rules j = (false, defaultMetrics))
    ∧ (∀ j : JSON, offer_meets_rules j = (false, defaultMetrics) ∨ (omrBody j).isOk = true)
    ∧ offer_meets_rules (JSON.str "garbage") = (false, defaultMetrics)
    ∧ offer_meets_rules (JSON.obj [("itineraries", JSON.num 3)]) = (false, defaultMetrics)
    ∧ offer_meets_rules (JSON.obj [("itineraries", JSON.arr [JSON.null])])
        = (false, defaultMetrics) := by
  refine ⟨?_, ?_, by with_unfolding_all decide, by with_unfolding_all decide,
    by with_unfolding_all decide⟩
  · intro j h
    unfold offer_meets_rules
    cases hb : omrBody j with
    | ok r => rw [hb] at h; simp [Except.isOk, Except.toBool] at h
    | error e => rfl
  · intro j
    cases hb : omrBody j with
    | ok r => right; rfl
    | error e => left; unfold offer_meets_rules; rw [hb]

/-- Witness for C9: a string offer record (no `.get` attribute) is caught. -/
theorem C9_fail_closed_witness :
    (omrBody (JSON.str "oops")).isOk = false ∧
    offer_meets_rules (JSON.str "oops") = (false, defaultMetrics) :=
  ⟨by with_unfolding_all decide,
    C9_fail_closed.1 (JSON.str "oops") (by with_unfolding_all decide)⟩

/-! ### C5 and C6: the alert rules -/

/-- A compacted offer with the given raw price value, rounded hours and
premium flag; the remaining fields are inert for the alert logic. -/
def mkCompact (price : JSON) (hours : ℚ) (premium : Bool) : Compact :=
  { price := price, currency := JSON.null, carriers := "", stops := 0,
    hours := hours, bag_included := false, premium := premium }

/-- A combo record with the given total, other fields inert for the alert
logic. -/
def mkComboT (total : ℚ) : Combo :=
  { total := total, currency := JSON.null, osa_ceb := mkCompact JSON.null 0 false,
    ceb_par := mkCompact JSON.null 0 false, date_osa_ceb := 0, date_ceb_par := 14 }

/-- C5: the direct-route alert fires iff the top-3 list is non-empty and the
cheapest compacted offer's price is ≤ 650, or lies in [651, 700] and the
exceptional-itinerary predicate holds on its rounded duration, an empty
layover list, and its premium flag.  A cheapest price of 720.0 fires no
alert; 680.0 with 20 h, no premium and no layover detail fires none; 650.0
fires the "≤650€" alert and 680.0 with 16 h the exception-band alert. -/
theorem C5_direct_alert :
    (∀ (best : Compact) (rest : List Compact) (p : ℚ), pyFloat best.price = .ok p →
      ((∃ a, osakaAlert (best :: rest) = .ok (some a)) ↔
        (p ≤ 650 ∨ (651 ≤ p ∧ p ≤ 700 ∧
          exceptional_itinerary best.hours [] best.premium = true))))
    ∧ osakaAlert [] = .ok none
    ∧ osakaAlert [mkCompact (.str "720.0") 20 false] = .ok none
    ∧ osakaAlert [mkCompact (.str "680.0") 20 false] = .ok none
    ∧ osakaAlert [mkCompact (.str "650.0") 20 false]
      = .ok (some { reason := "≤650€", best := mkCompact (.str "650.0") 20 false })
    ∧ osakaAlert [mkCompact (.str "680.0") 16 false]
      = .ok (some { reason := "651–700€ exceptionnel",
                    best := mkCompact (.str "680.0") 16 false }) := by
  refine ⟨?_, rfl, by with_unfolding_all rfl, by with_unfolding_all rfl,
    by with_unfolding_all rfl, by with_unfolding_all rfl⟩
  intro best rest p hp
  have hred : osakaAlert (best :: rest) = (do
      let price ← pyFloat best.price
      if price ≤ THRESHOLD_MAIN then pure (some { reason := "≤650€", best := best })
      else if EXCEPTION_MIN ≤ price ∧ price ≤ EXCEPTION_MAX ∧
          exceptional_itinerary best.hours [] best.premium = true then
        pure (some { reason := "651–700€ exceptionnel", best := best })
      else pure none) := rfl
  rw [hred, hp, except_bind_ok]
  simp only [THRESHOLD_MAIN, EXCEPTION_MIN, EXCEPTION_MAX]
  by_cases h1 : p ≤ 650
  · rw [if_pos h1]
    exact ⟨fun _ => Or.inl h1, fun _ => ⟨_, rfl⟩⟩
  · rw [if_neg h1]
    by_cases h2 : 651 ≤ p ∧ p ≤ 700 ∧ exceptional_itinerary best.hours [] best.premium = true
    · rw [if_pos h2]
      exact ⟨fun _ => Or.inr h2, fun _ => ⟨_, rfl⟩⟩
    · rw [if_neg h2]
      constructor
      · rintro ⟨a, ha⟩
        have hn : (pure none : Except Unit (Option OsakaAlert)) = .ok none := rfl
        rw [hn] at ha
        simp at ha
      · rintro (h | h)
        · exact absurd h h1
        · exact absurd h h2

/-- Witness for C5 at a concrete parsed price. -/
theorem C5_direct_alert_witness :
    pyFloat (JSON.str "600.0") = .ok 600 ∧
    (∃ a, osakaAlert [mkCompact (.str "600.0") 20 false] = .ok (some a)) := by
  have hp : pyFloat (JSON.str "600.0") = .ok 600 := by with_unfolding_all decide
  refine ⟨hp, ?_⟩
  exact (C5_direct_alert.1 _ [] 600 hp).mpr (Or.inl (by norm_num))

/-- C6: the combo alert fires iff both top-3 lists are non-empty and the
cheapest combo's total is strictly below the cheapest direct price plus
300; with direct cheapest 600, a combo of 850 fires and one of 950 does
not. -/
theorem C6_combo_alert :
    (∀ (c : Combo) (cs : List Combo) (b : Compact) (bs : List Compact) (p : ℚ),
      pyFloat b.price = .ok p →
      ((∃ a, comboAlert (c :: cs) (b :: bs) = .ok (some a)) ↔ c.total < p + 300))
    ∧ (∀ bs, comboAlert [] bs = .ok none)
    ∧ (∀ cs, comboAlert cs [] = .ok none)
    ∧ comboAlert [mkComboT 850] [mkCompact (.str "600.0") 20 false]
        = .ok (some (mkComboT 850, 900))
    ∧ comboAlert [mkComboT 950] [mkCompact (.str "600.0") 20 false] = .ok none := by
  refine ⟨?_, fun bs => rfl, ?_, by with_unfolding_all rfl, by with_unfolding_all rfl⟩
  · intro c cs b bs p hp
    have hred : comboAlert (c :: cs) (b :: bs) = (do
        let p ← pyFloat b.price
        let ref : ℚ := p + 300
        if c.total < ref then pure (some (c, ref)) else pure none) := rfl
    rw [hred, hp, except_bind_ok]
    by_cases h : c.total < p + 300
    · rw [if_pos h]
      exact ⟨fun _ => h, fun _ => ⟨_, rfl⟩⟩
    · rw [if_neg h]
      constructor
      · rintro ⟨a, ha⟩
        have hn : (pure none : Except Unit (Option (Combo × ℚ))) = .ok none := rfl
        rw [hn] at ha
        simp at ha
      · intro hlt
        exact absurd hlt h
  · intro cs
    cases cs with
    | nil => rfl
    | cons c cs2 => rfl

/-- Witness for C6 at a concrete parsed price. -/
theorem C6_combo_alert_witness :
    pyFloat (JSON.str "600.0") = .ok 600 ∧
    (∃ a, comboAlert [mkComboT 850] [mkCompact (.str "600.0") 20 false] = .ok (some a)) := by
  have hp : pyFloat (JSON.str "600.0") = .ok 600 := by with_unfolding_all decide
  refine ⟨hp, ?_⟩
  exact (C6_combo_alert.1 _ [] _ [] 600 hp).mpr (by norm_num [mkComboT])

/-! ### C10: the ComboItinerary invariant -/

/-- The price denoted by a stored raw `total` value, with the same
failure-to-`1e9` semantics as `get_price`. -/
def priceVal (j : JSON) : ℚ :=
  match pyFloat j with
  | .ok q => q
  | .error _ => 1000000000

theorem except_bind_err {α β : Type} (e : Unit) (f : α → Except Unit β) :
    ((Except.error e : Except Unit α) >>= f) = .error e := rfl

theorem except_map_err {α β : Type} (e : Unit) (g : α → β) :
    (g <$> (Except.error e : Except Unit α)) = .error e := rfl

theorem except_map_ok {α β : Type} (a : α) (g : α → β) :
    (g <$> (Except.ok a : Except Unit α)) = .ok (g a) := rfl

/-- A successfully compacted offer stores under `price` the same raw value
that `get_price` converts, so the leg price can be read back from the combo
record. -/
theorem compact_price (off : JSON) (m : Metrics) (c : Compact)
    (h : compact off m = .ok c) : get_price off = priceVal c.price := by
  cases off with
  | obj fs =>
    unfold compact at h
    simp only [jgetD, except_bind_ok] at h
    cases hpo : (jlookup fs "price").getD (.obj []) with
    | obj gs =>
      rw [hpo] at h
      simp only [except_bind_ok] at h
      cases hcodes : (jlookup fs "validatingAirlineCodes").getD (.arr []) |> jiter with
      | error e =>
        rw [hcodes, except_bind_err] at h
        exact absurd h (by simp)
      | ok codesL =>
        rw [hcodes] at h
        simp only [except_bind_ok] at h
        cases hstrs : codesL.mapM (fun c =>
            match c with
            | .str s => Except.ok s
            | _ => Except.error ()) with
        | error e =>
          rw [hstrs] at h
          exact absurd h (by simp [except_bind_err, except_map_err])
        | ok strs =>
          rw [hstrs] at h
          simp only [except_bind_ok, except_map_ok] at h
          have hc : c = ⟨(jlookup gs "total").getD .null,
              (jlookup gs "currency").getD .null, joinComma strs, m.stops,
              pyRound1 m.total_hours, m.bag_included, m.premium⟩ := by
            cases h
            rfl
          subst hc
          unfold get_price
          simp only [jgetD, hpo, except_bind_ok]
          cases ht : jlookup gs "total" with
          | none => rfl
          | some t =>
            simp only [Option.getD]
            unfold priceVal
            cases pyFloat t <;> rfl
    | null => rw [hpo] at h; exact absurd h (by simp [except_bind_err])
    | bool b => rw [hpo] at h; exact absurd h (by simp [except_bind_err])
    | num q => rw [hpo] at h; exact absurd h (by simp [except_bind_err])
    | str s => rw [hpo] at h; exact absurd h (by simp [except_bind_err])
    | arr xs => rw [hpo] at h; exact absurd h (by simp [except_bind_err])
  | null => exact absurd h (by simp [compact, jgetD, except_bind_err])
  | bool b => exact absurd h (by simp [compact, jgetD, except_bind_err])
  | num q => exact absurd h (by simp [compact, jgetD, except_bind_err])
  | str s => exact absurd h (by simp [compact, jgetD, except_bind_err])
  | arr xs => exact absurd h (by simp [compact, jgetD, except_bind_err])

/-- Inversion of one combo record construction: the two dates differ by 14
days and the total is the rounded sum of the two leg prices as stored in the
compacted legs. -/
theorem comboRecord_spec (a b : JSON × Metrics) (d : Int) (c : Combo)
    (h : comboRecord a b d = .ok c) :
    c.date_ceb_par = c.date_osa_ceb + 14 ∧ c.date_osa_ceb = d ∧
    c.total = pyRound2 (priceVal c.osa_ceb.price + priceVal c.ceb_par.price) := by
  unfold comboRecord at h
  cases hcur : comboCurrency a.1 with
  | error e => rw [hcur] at h; exact absurd h (by simp [except_bind_err])
  | ok cur =>
    rw [hcur] at h
    simp only [except_bind_ok] at h
    cases hca : compact a.1 a.2 with
    | error e => rw [hca] at h; exact absurd h (by simp [except_bind_err])
    | ok ca =>
      rw [hca] at h
      simp only [except_bind_ok] at h
      cases hcb : compact b.1 b.2 with
      | error e => rw [hcb] at h; exact absurd h (by simp [except_map_err])
      | ok cb =>
        rw [hcb] at h
        simp only [except_bind_ok, except_map_ok] at h
        have hc : c = ⟨pyRound2 (get_price a.1 + get_price b.1), cur, ca, cb,
            d, d + 14⟩ := by
          cases h
          rfl
        subst hc
        refine ⟨rfl, rfl, ?_⟩
        simp only [compact_price a.1 a.2 ca hca, compact_price b.1 b.2 cb hcb]

/-- Successful `mapM` over `Except` maps members to members. -/
theorem mapM_except_mem {α β : Type} (f : α → Except Unit β) :
    ∀ (xs : List α) (ys : List β), xs.mapM f = .ok ys →
      ∀ y ∈ ys, ∃ x ∈ xs, f x = .ok y := by
  intro xs
  induction xs with
  | nil =>
    intro ys h y hy
    rw [List.mapM_nil] at h
    cases h
    simp at hy
  | cons x xs ih =>
    intro ys h y hy
    rw [List.mapM_cons] at h
    cases hx : f x with
    | error e => rw [hx] at h; exact absurd h (by simp [except_bind_err])
    | ok y0 =>
      rw [hx] at h
      simp only [except_bind_ok] at h
      cases hrest : xs.mapM f with
      | error e => rw [hrest] at h; exact absurd h (by simp)
      | ok ys0 =>
        rw [hrest] at h
        simp only [except_bind_ok] at h
        cases h
        rcases List.mem_cons.mp hy with rfl | hy0
        · exact ⟨x, by simp, hx⟩
        · obtain ⟨x1, hx1, hfx1⟩ := ih ys0 hrest y hy0
          exact ⟨x1, by simp [hx1], hfx1⟩

theorem mem_daterange (s e x : Int) (h : x ∈ daterange s e) : s ≤ x ∧ x ≤ e := by
  unfold daterange at h
  simp only [List.mem_map, List.mem_range] at h
  obtain ⟨i, hi, rfl⟩ := h
  omega

/-- C10 counterexample: with leg prices 0.005 and 0.001, every combo built
stores total 0.01 — the rounded sum — while the exact sum of the stored leg
prices is 0.006, so "combined price = price(A) + price(B)" fails. -/
def cxOffer (total : String) : JSON :=
  JSON.obj [("itineraries", .arr [JSON.obj [("segments", .arr [JSON.obj []]),
              ("duration", .str "PT1H")]]),
            ("travelerPricings", .arr [JSON.obj [("fareDetailsBySegment",
              .arr [JSON.obj [("includedCheckedBags",
                JSON.obj [("quantity", .num 1)])]])]]),
            ("validatingAirlineCodes", .arr []),
            ("price", JSON.obj [("total", .str total), ("currency", .str "EUR")])]

/-- An offers oracle that returns one passing leg per direction, with prices
of three decimal places. -/
def cxFetch : Fetch := fun o d _ =>
  if o = "KIX" && d = "CEB" then [cxOffer "0.005"]
  else if o = "CEB" && d = "CDG" then [cxOffer "0.001"]
  else []

theorem C10_rounding_counterexample :
    (validCebuCombos cxFetch).map (fun l => l.map Combo.total)
      = .ok (List.replicate 15 ((1 : ℚ)/100))
    ∧ (validCebuCombos cxFetch).map (fun l => l.map (fun c =>
        priceVal c.osa_ceb.price + priceVal c.ceb_par.price))
      = .ok (List.replicate 15 ((3 : ℚ)/500))
    ∧ ((1 : ℚ)/100) ≠ (3 : ℚ)/500 := by
  refine ⟨?_, ?_, by norm_num⟩
  · with_unfolding_all decide
  · with_unfolding_all decide

/-- C10 (amended): every combo the orchestrator constructs has its second
date equal to its first date plus 14 days, its first date ranging over the
configured window 2026-04-01..2026-04-15, and its combined price equal to
the sum of the two leg prices rounded to 2 decimal places (exact equality
holds whenever that sum already has at most 2 decimals). -/
theorem C10_combo_invariant (fetch : Fetch) (cs : List Combo)
    (h : validCebuCombos fetch = .ok cs) :
    ∀ c ∈ cs, c.date_ceb_par = c.date_osa_ceb + 14 ∧
      CEBU_WINDOW_START ≤ c.date_osa_ceb ∧ c.date_osa_ceb ≤ CEBU_WINDOW_END ∧
      c.total = pyRound2 (priceVal c.osa_ceb.price + priceVal c.ceb_par.price) := by
  intro c hc
  unfold validCebuCombos at h
  cases hm : (daterange CEBU_WINDOW_START CEBU_WINDOW_END).mapM (combosForDate fetch) with
  | error e => rw [hm] at h; exact absurd h (by simp)
  | ok ls =>
    rw [hm] at h
    simp only [except_bind_ok] at h
    cases h
    obtain ⟨l, hl, hcl⟩ := List.mem_flatten.mp hc
    obtain ⟨d, hd, hok⟩ := mapM_except_mem _ _ ls hm l hl
    have hcd : ∃ a b, comboRecord a b d = .ok c := by
      unfold combosForDate at hok
      obtain ⟨ab, hab, habok⟩ := mapM_except_mem _ _ l hok c hcl
      exact ⟨ab.1, ab.2, habok⟩
    obtain ⟨a, b, hab⟩ := hcd
    obtain ⟨h14, hda, htot⟩ := comboRecord_spec a b d c hab
    obtain ⟨hd1, hd2⟩ := mem_daterange _ _ _ hd
    exact ⟨h14, by omega, by omega, htot⟩

/-- Witness for C10: the oracle of the counterexample produces a combo list
on which the invariant is checked. -/
theorem C10_combo_invariant_witness :
    ∃ cs, validCebuCombos cxFetch = .ok cs ∧
      ∀ c ∈ cs, c.date_ceb_par = c.date_osa_ceb + 14 ∧
        CEBU_WINDOW_START ≤ c.date_osa_ceb ∧ c.date_osa_ceb ≤ CEBU_WINDOW_END ∧
        c.total = pyRound2 (priceVal c.osa_ceb.price + priceVal c.ceb_par.price) := by
  have hok : (validCebuCombos cxFetch).isOk = true := by with_unfolding_all decide
  cases hm : validCebuCombos cxFetch with
  | error e =>
    rw [hm] at hok
    simp [Except.isOk, Except.toBool] at hok
  | ok cs => exact ⟨cs, rfl, C10_combo_invariant cxFetch cs hm⟩

end SuperVeille
